import Mathlib

/-
Verification model of the go-ethereum indexer plugin
(core/plugin.go, core/db.go, schema.sql).

Modelling conventions:
* Hashes, addresses and other hex-rendered values are abstract strings:
  header.Hash().Hex(), common.Hash.String() and friends are carried as
  already-rendered string fields of the model header.
* Go pointer-typed optional header fields (*big.Int BaseFee and Difficulty,
  *uint64 BlobGasUsed / ExcessBlobGas, *common.Hash ParentBeaconRoot /
  WithdrawalsHash) are Option values.  (*big.Int).String() tolerates a nil
  receiver and prints "<nil>"; dereferencing a nil *uint64, or calling the
  value-receiver common.Hash.String() through a nil pointer, panics.  A Go
  panic is modelled as the Option result none.
* The backing store is PostgreSQL (lib/pq driver, postgres:15 deployment,
  schema.sql).  A SQL statement that violates a PRIMARY KEY / UNIQUE
  constraint or a foreign key fails; after any failed statement the
  enclosing transaction is aborted and every later statement in it,
  including COMMIT, fails as well ("current transaction is aborted").
  SqlTx.postAbort counts statements the engine still attempts on an
  aborted transaction.
* A transaction holds a working copy of the database; COMMIT on a
  non-aborted transaction installs the working copy as the committed
  state, rollback discards it.  Concrete counterexamples are chosen so
  that no two transactions ever commit interleaved row-level changes,
  where this snapshot model and row-level Postgres semantics could differ.
* The accounts table is never read, written or deleted by any code under
  scrutiny and is omitted from the state.
-/

namespace Indexer

/-- sql.NullString: a string plus a validity flag (Valid = false ⇒ SQL NULL). -/
structure NullStr where
  str : String
  valid : Bool
deriving Repr, DecidableEq

/-- (*big.Int).String(): nil-safe, a nil pointer prints "<nil>". -/
def bigIntStr : Option Int → String
  | none => "<nil>"
  | some v => toString v

/-- go-ethereum types.Header restricted to the fields the indexer reads.
Fields that the Go code only ever renders to text (nonce via %d, extra data
and bloom via 0x%x, addresses and hashes via .Hex()) are carried as the
rendered strings. -/
structure Header where
  number : Nat
  hashVal : String
  parentHash : String
  time : Nat
  nonceStr : String
  baseFee : Option Int
  blobGasUsed : Option Nat
  excessBlobGas : Option Nat
  difficulty : Option Int
  extraStr : String
  gasLimit : Nat
  gasUsed : Nat
  bloomStr : String
  coinbase : String
  mixDigest : String
  parentBeaconRoot : Option String
  receiptHash : String
  uncleHash : String
  root : String
  txHash : String
  withdrawalsHash : Option String
deriving Repr, DecidableEq

/-- core.Block as populated by IndexerPlugin.OnHead (core/plugin.go:74-96).
Fields the plugin leaves at their Go zero value (Size, TotalDifficulty,
SealFields, Transactions, Uncles, BlockReward, UncleReward) are included
with those zero values so the record matches the inserted row. -/
structure Block where
  number : Nat
  hash : String
  parentHash : String
  timestamp : Nat
  nonce : String
  baseFeePerGas : NullStr
  blobGasUsed : NullStr
  difficulty : String
  excessBlobGas : NullStr
  extraData : String
  gasLimit : String
  gasUsed : String
  logsBloom : NullStr
  miner : String
  mixHash : String
  parentBeaconBlockRoot : NullStr
  receiptsRoot : String
  sha3Uncles : String
  size : String
  stateRoot : String
  totalDifficulty : NullStr
  transactionsRoot : String
  withdrawalsRoot : NullStr
  sealFields : List String
  transactions : List String
  uncles : List String
  blockReward : String
  uncleReward : String
deriving Repr, DecidableEq

/-- A committed row of the blocks table: the inserted record plus the
finalized column (schema.sql blocks.finalized BOOLEAN DEFAULT FALSE). -/
structure BlockRow where
  data : Block
  finalized : Bool
deriving Repr, DecidableEq

/-- A row of the transactions table, restricted to the columns that any
modelled statement reads: the primary key hash and the block_number used
by the range deletes and foreign keys.  No code under scrutiny ever
inserts transactions; rows exist only in constructed states. -/
structure TxRow where
  hash : String
  blockNumber : Nat
deriving Repr, DecidableEq

/-- A row of the logs table (id BIGSERIAL omitted: never read). -/
structure LogRow where
  transactionHash : String
  blockNumber : Nat
  address : String
  topics : List String
  data : String
  logIndex : Nat
  removed : Bool
deriving Repr, DecidableEq

/-- A row of the receipts table (id BIGSERIAL omitted: never read). -/
structure ReceiptRow where
  blockNumber : Nat
  blockHash : String
  transactionHash : String
  transactionIndex : Nat
  contractAddress : String
  gasUsed : Nat
  status : Nat
deriving Repr, DecidableEq

/-- A row of the state_changes table (id omitted). -/
structure StateChangeRow where
  blockNumber : Nat
  transactionHash : String
  address : String
  storageKey : NullStr
  prevValue : String
  newValue : String
  changeType : String
deriving Repr, DecidableEq

/-- A row of the access_lists table (id omitted). -/
structure AccessListRow where
  transactionHash : String
  address : String
  storageKey : String
deriving Repr, DecidableEq

/-- The committed database state: one list per table of the schema that
the indexer touches. -/
structure DBState where
  blocks : List BlockRow
  transactions : List TxRow
  logs : List LogRow
  receipts : List ReceiptRow
  stateChanges : List StateChangeRow
  accessLists : List AccessListRow
deriving Repr, DecidableEq

def dbEmpty : DBState := ⟨[], [], [], [], [], []⟩

/-- An open SQL transaction: working copy of the database, the Postgres
aborted flag, and a count of the statements the engine attempted after
the transaction became aborted. -/
structure SqlTx where
  working : DBState
  aborted : Bool
  postAbort : Nat
deriving Repr, DecidableEq

/-- Execute one statement inside a transaction.  On an aborted transaction
every statement fails without touching the data ("current transaction is
aborted"); otherwise a constraint violation (stmt returns none) aborts the
transaction.  The Go code observes the error of each Exec; in this model
err ≠ nil exactly when the resulting transaction is aborted. -/
def execStmt (t : SqlTx) (stmt : DBState → Option DBState) : SqlTx :=
  if t.aborted then { t with postAbort := t.postAbort + 1 }
  else
    match stmt t.working with
    | some w => { t with working := w }
    | none => { t with aborted := true }

/-- INSERT INTO blocks ... (IndexerDB.InsertBlockWithTx).  Fails on the
number PRIMARY KEY or the hash UNIQUE constraint; the finalized column is
not in the column list and takes its DEFAULT false. -/
def insertBlockStmt (b : Block) (s : DBState) : Option DBState :=
  if s.blocks.any fun r => decide (r.data.number = b.number) || decide (r.data.hash = b.hash) then
    none
  else
    some { s with blocks := ⟨b, false⟩ :: s.blocks }

/-- INSERT INTO receipts ... (IndexerDB.InsertReceiptWithTx).  Fails on
UNIQUE(transaction_hash) and on the foreign keys transaction_hash →
transactions(hash) and block_number → blocks(number). -/
def insertReceiptStmt (r : ReceiptRow) (s : DBState) : Option DBState :=
  if s.receipts.any fun x => decide (x.transactionHash = r.transactionHash) then none
  else if !(s.transactions.any fun t => decide (t.hash = r.transactionHash)) then none
  else if !(s.blocks.any fun b => decide (b.data.number = r.blockNumber)) then none
  else some { s with receipts := r :: s.receipts }

/-- INSERT INTO logs ... (IndexerDB.InsertLogWithTx).  Fails on the foreign
keys transaction_hash → transactions(hash) and block_number → blocks(number). -/
def insertLogStmt (l : LogRow) (s : DBState) : Option DBState :=
  if !(s.transactions.any fun t => decide (t.hash = l.transactionHash)) then none
  else if !(s.blocks.any fun b => decide (b.data.number = l.blockNumber)) then none
  else some { s with logs := l :: s.logs }

/-- DELETE FROM access_lists WHERE transaction_hash IN
(SELECT hash FROM transactions WHERE block_number >= K).
access_lists has no child tables, so this never fails. -/
def deleteAccessListsStmt (K : Nat) (s : DBState) : Option DBState :=
  some { s with accessLists :=
    s.accessLists.filter fun a =>
      !(s.transactions.any fun t => decide (t.hash = a.transactionHash) && decide (K ≤ t.blockNumber)) }

/-- DELETE FROM state_changes WHERE block_number >= K.  Never fails. -/
def deleteStateChangesStmt (K : Nat) (s : DBState) : Option DBState :=
  some { s with stateChanges := s.stateChanges.filter fun c => decide (c.blockNumber < K) }

/-- DELETE FROM logs WHERE block_number >= K.  Never fails. -/
def deleteLogsStmt (K : Nat) (s : DBState) : Option DBState :=
  some { s with logs := s.logs.filter fun l => decide (l.blockNumber < K) }

/-- DELETE FROM transactions WHERE block_number >= K.  Fails if any
remaining row of logs, receipts, state_changes or access_lists still
references a deleted transaction hash (RESTRICT foreign keys). -/
def deleteTransactionsStmt (K : Nat) (s : DBState) : Option DBState :=
  let deleted := s.transactions.filter fun t => decide (K ≤ t.blockNumber)
  if s.logs.any (fun l => deleted.any fun t => decide (t.hash = l.transactionHash)) ||
     s.receipts.any (fun r => deleted.any fun t => decide (t.hash = r.transactionHash)) ||
     s.stateChanges.any (fun c => deleted.any fun t => decide (t.hash = c.transactionHash)) ||
     s.accessLists.any (fun a => deleted.any fun t => decide (t.hash = a.transactionHash)) then
    none
  else
    some { s with transactions := s.transactions.filter fun t => decide (t.blockNumber < K) }

/-- Does a child row with block number n reference a blocks row that the
range delete with bound K would remove? -/
def refsDeletedBlock (K : Nat) (s : DBState) (n : Nat) : Bool :=
  s.blocks.any fun b => decide (K ≤ b.data.number) && decide (b.data.number = n)

/-- DELETE FROM blocks WHERE number >= K.  Fails if any remaining row of
transactions, logs, receipts or state_changes still references a deleted
block number (RESTRICT foreign keys). -/
def deleteBlocksStmt (K : Nat) (s : DBState) : Option DBState :=
  if s.transactions.any (fun t => refsDeletedBlock K s t.blockNumber) ||
     s.logs.any (fun l => refsDeletedBlock K s l.blockNumber) ||
     s.receipts.any (fun r => refsDeletedBlock K s r.blockNumber) ||
     s.stateChanges.any (fun c => refsDeletedBlock K s c.blockNumber) then
    none
  else
    some { s with blocks := s.blocks.filter fun b => decide (b.data.number < K) }

/-- IndexerDB.DeleteBlockAndDescendantsWithTx (core/db.go:413-433): the five
delete statements in the order of the deleteQueries slice, returning on the
first error.  The receipts table has no delete statement in the source.
The resulting aborted flag is the error result the Go function returns. -/
def deleteRangeWithTx (t : SqlTx) (K : Nat) : SqlTx :=
  let t1 := execStmt t (deleteAccessListsStmt K)
  if t1.aborted then t1 else
  let t2 := execStmt t1 (deleteStateChangesStmt K)
  if t2.aborted then t2 else
  let t3 := execStmt t2 (deleteLogsStmt K)
  if t3.aborted then t3 else
  let t4 := execStmt t3 (deleteTransactionsStmt K)
  if t4.aborted then t4 else
  execStmt t4 (deleteBlocksStmt K)

/-- The tables named by the DELETE statements of
DeleteBlockAndDescendantsWithTx, in source order. -/
inductive DTable where
  | accessLists | stateChanges | logs | receipts | transactions | blocks
deriving Repr, DecidableEq

/-- The delete order of the source (deleteQueries in core/db.go:415-423). -/
def deleteOrder : List DTable :=
  [DTable.accessLists, DTable.stateChanges, DTable.logs, DTable.transactions, DTable.blocks]

/-- Modelled from the spec: the delete order section 4.2 requires
(access-lists, state-changes, logs, receipts, transactions, blocks). -/
def specDeleteOrder : List DTable :=
  [DTable.accessLists, DTable.stateChanges, DTable.logs, DTable.receipts,
   DTable.transactions, DTable.blocks]

/-- types.Log as read by the receipt loop: the fields of each log entry the
plugin copies (Index, Address, Topics rendered, Data hex-encoded). -/
structure LogData where
  index : Nat
  address : String
  topics : List String
  data : String
deriving Repr, DecidableEq

/-- types.Receipt as read by the receipt loop: TxHash and ContractAddress
rendered, GasUsed, Status, and the log entries. -/
structure RcptData where
  txHash : String
  contractAddress : String
  gasUsed : Nat
  status : Nat
  logs : List LogData
deriving Repr, DecidableEq

/-- The Block literal of IndexerPlugin.OnHead (core/plugin.go:74-96).
Go evaluates every field expression of the composite literal:
fmt.Sprintf with *header.BlobGasUsed and *header.ExcessBlobGas
dereferences the pointers, and header.ParentBeaconRoot.String() /
header.WithdrawalsHash.String() call a value-receiver method through the
pointers, so a nil value in any of those four fields panics (none).
header.BaseFee.String() and header.Difficulty.String() are nil-safe. -/
def mkBlock (h : Header) : Option Block :=
  match h.blobGasUsed, h.excessBlobGas, h.parentBeaconRoot, h.withdrawalsHash with
  | some bgu, some ebg, some pbr, some wr =>
    some
      { number := h.number
        hash := h.hashVal
        parentHash := h.parentHash
        timestamp := h.time
        nonce := h.nonceStr
        baseFeePerGas := ⟨bigIntStr h.baseFee, h.baseFee.isSome⟩
        blobGasUsed := ⟨toString bgu, true⟩
        difficulty := bigIntStr h.difficulty
        excessBlobGas := ⟨toString ebg, true⟩
        extraData := h.extraStr
        gasLimit := toString h.gasLimit
        gasUsed := toString h.gasUsed
        logsBloom := ⟨h.bloomStr, true⟩
        miner := h.coinbase
        mixHash := h.mixDigest
        parentBeaconBlockRoot := ⟨pbr, true⟩
        receiptsRoot := h.receiptHash
        sha3Uncles := h.uncleHash
        size := ""
        stateRoot := h.root
        totalDifficulty := ⟨"", false⟩
        transactionsRoot := h.txHash
        withdrawalsRoot := ⟨wr, true⟩
        sealFields := []
        transactions := []
        uncles := []
        blockReward := ""
        uncleReward := "" }
  | _, _, _, _ => none

/-- The receipt record built for the i-th receipt of a head block. -/
def deriveReceipt (h : Header) (i : Nat) (rc : RcptData) : ReceiptRow :=
  { blockNumber := h.number
    blockHash := h.hashVal
    transactionHash := rc.txHash
    transactionIndex := i
    contractAddress := rc.contractAddress
    gasUsed := rc.gasUsed
    status := rc.status }

/-- The log record built for one log entry of a receipt. -/
def deriveLog (h : Header) (th : String) (le : LogData) : LogRow :=
  { transactionHash := th
    blockNumber := h.number
    address := le.address
    topics := le.topics
    data := le.data
    logIndex := le.index
    removed := false }

/-- The inner log loop of OnHead: every log entry is attempted in order;
on an insert error the code logs and continues with the next entry. -/
def insertLogsLoop (h : Header) (th : String) : SqlTx → List LogData → SqlTx
  | t, [] => t
  | t, le :: rest => insertLogsLoop h th (execStmt t (insertLogStmt (deriveLog h th le))) rest

/-- The receipt loop of OnHead: each receipt is inserted; on an insert
error the code logs and continues with the NEXT receipt, skipping the
logs of the failed receipt; otherwise its logs are inserted. -/
def insertReceiptsLoop (h : Header) : SqlTx → Nat → List RcptData → SqlTx
  | t, _, [] => t
  | t, i, rc :: rest =>
    let t1 := execStmt t (insertReceiptStmt (deriveReceipt h i rc))
    if t1.aborted then insertReceiptsLoop h t1 (i + 1) rest
    else insertReceiptsLoop h (insertLogsLoop h rc.txHash t1 rc.logs) (i + 1) rest

/-- The rows OnHead derives for the receipts of a block, paired with the
derived log rows of each receipt, starting at transaction index i. -/
def derivedPairs (h : Header) : Nat → List RcptData → List (ReceiptRow × List LogRow)
  | _, [] => []
  | i, rc :: rest =>
    (deriveReceipt h i rc, rc.logs.map (deriveLog h rc.txHash)) :: derivedPairs h (i + 1) rest

/-- The observable outcome of one engine call: the committed database,
how many transactions were begun, and how many statements were attempted
on an already-aborted transaction. -/
structure HeadResult where
  state : DBState
  txBegins : Nat
  postAbort : Nat
deriving Repr, DecidableEq

/-- IndexerPlugin.OnHead (core/plugin.go:53-173).  dbp is whether the
plugin holds a database handle; chain maps a block hash to the receipts
GetReceiptsByHash returns for it.  Result none models a Go panic (the nil
pointer dereferences inside the Block literal).  On the nil-handle path the
method returns before doing anything.  Otherwise: begin a transaction with
deferred Rollback, insert the block (return on error), loop over the
receipts and their logs (continue on error), and commit; a failed commit is
logged and the deferred Rollback discards the transaction. -/
def OnHead (dbp : Bool) (chain : String → List RcptData) (s : DBState) (h : Header) :
    Option HeadResult :=
  if dbp = false then some ⟨s, 0, 0⟩
  else
    match mkBlock h with
    | none => none
    | some b =>
      let t0 : SqlTx := ⟨s, false, 0⟩
      let t1 := execStmt t0 (insertBlockStmt b)
      if t1.aborted then some ⟨s, 1, t1.postAbort⟩
      else
        let t2 := insertReceiptsLoop h t1 0 (chain h.hashVal)
        if t2.aborted then some ⟨s, 1, t2.postAbort + 1⟩
        else some ⟨t2.working, 1, t2.postAbort⟩

/-- IndexerDB.MarkBlockFinalized (core/db.go:436-457): the ALTER TABLE ADD
COLUMN IF NOT EXISTS is a schema no-op here (the flag is always modelled),
then UPDATE blocks SET finalized = true WHERE number = n.  An UPDATE that
matches no row succeeds with zero rows affected, so the Bool error result
is always true (ok). -/
def markBlockFinalized (s : DBState) (n : Nat) : DBState × Bool :=
  ({ s with blocks := s.blocks.map fun r => if r.data.number = n then ⟨r.data, true⟩ else r },
   true)

/-- IndexerPlugin.OnFinal (core/plugin.go:176-195): returns at once without
a database handle, otherwise calls MarkBlockFinalized and logs the result. -/
def OnFinal (dbp : Bool) (s : DBState) (n : Nat) : DBState :=
  if dbp = false then s else (markBlockFinalized s n).1

/-- IndexerPlugin.OnClose (core/plugin.go:198-203): calls p.db.Close()
without a nil check; with a plugin built without a database connection the
nil IndexerPlugin.db is dereferenced and the call panics (none). -/
def OnClose (dbp : Bool) : Option Unit :=
  if dbp then some () else none

/-- The delete loop of OnReorg: DeleteBlockAndDescendantsWithTx per old
header, returning on the first error. -/
def deleteLoop (t : SqlTx) : List Header → SqlTx
  | [] => t
  | h :: rest =>
    let t1 := deleteRangeWithTx t h.number
    if t1.aborted then t1 else deleteLoop t1 rest

/-- The insert loop of OnReorg: for each new header the code calls
p.OnHead(header), which begins, uses and commits its OWN transaction
against the committed state; the loop accumulates the transaction and
post-abort counters, and a panic inside OnHead propagates (none). -/
def insertLoop (chain : String → List RcptData) : DBState → List Header →
    Option (DBState × Nat × Nat)
  | s, [] => some (s, 0, 0)
  | s, h :: rest =>
    match OnHead true chain s h with
    | none => none
    | some r =>
      match insertLoop chain r.state rest with
      | none => none
      | some (s2, b, p) => some (s2, r.txBegins + b, r.postAbort + p)

/-- IndexerPlugin.OnReorg (core/plugin.go:206-239).  The opening log line
indexes oldHeaders[0] and newHeaders[0] (panic on an empty slice), then
p.db.db.Beginx() dereferences the db handle (panic when the plugin has
none).  Then: one outer transaction, the delete loop (return on error,
deferred Rollback), the insert loop (each new header through OnHead and a
fresh per-block transaction), and a commit of the outer transaction, which
installs the outer working snapshot. -/
def OnReorg (dbp : Bool) (chain : String → List RcptData) (s : DBState)
    (old new : List Header) : Option HeadResult :=
  match old, new with
  | [], _ => none
  | _, [] => none
  | _ :: _, _ :: _ =>
    if dbp = false then none
    else
      let t0 : SqlTx := ⟨s, false, 0⟩
      let t1 := deleteLoop t0 old
      if t1.aborted then some ⟨s, 1, t1.postAbort⟩
      else
        match insertLoop chain s new with
        | none => none
        | some (_, b, p) => some ⟨t1.working, 1 + b, t1.postAbort + p⟩

/-- The receipts LRU cache (core/plugin.go:242): entries most recent first,
capacity 32 as in lru.NewCache. -/
structure RCache where
  entries : List (String × List RcptData)
deriving Repr, DecidableEq

def rcacheCapacity : Nat := 32

/-- lru.Cache.Get: a hit returns the value and marks the key most
recently used. -/
def lruGet (c : RCache) (h : String) : Option (List RcptData) × RCache :=
  match c.entries.find? (fun e => decide (e.1 = h)) with
  | some e => (some e.2, ⟨(h, e.2) :: c.entries.filter fun x => decide (x.1 ≠ h)⟩)
  | none => (none, c)

/-- lru.Cache.Add: insert as most recently used, evicting the least
recently used entry when over capacity. -/
def lruAdd (c : RCache) (h : String) (v : List RcptData) : RCache :=
  let l := (h, v) :: c.entries.filter fun x => decide (x.1 ≠ h)
  ⟨if rcacheCapacity < l.length then l.dropLast else l⟩

/-- core.GetBlockReceipts (core/plugin.go:245-260): serve from the cache on
a hit; otherwise fetch, return nil uncached, and cache a non-nil result.
getR h = none models a nil receipts slice from the blockchain. -/
def GetBlockReceipts (getR : String → Option (List RcptData)) (h : String) (c : RCache) :
    Option (List RcptData) × RCache :=
  match lruGet c h with
  | (some v, c1) => (some v, c1)
  | (none, c1) =>
    match getR h with
    | none => (none, c1)
    | some v => (some v, lruAdd c1 h v)

/-- Run a sequence of GetBlockReceipts calls, keeping the final cache. -/
def runCalls (getR : String → Option (List RcptData)) : RCache → List String → RCache
  | c, [] => c
  | c, h :: rest => runCalls getR (GetBlockReceipts getR h c).2 rest

/-- Every cached entry agrees with a fresh fetch. -/
def CacheOK (getR : String → Option (List RcptData)) (c : RCache) : Prop :=
  ∀ e ∈ c.entries, getR e.1 = some e.2

/- Concrete fixtures used by the closed theorems and witnesses. -/

/-- A chain whose blocks have no receipts. -/
def chainEmpty : String → List RcptData := fun _ => []

/-- A post-Cancun header for block 10 with every optional field present. -/
def hdrA : Header :=
  { number := 10
    hashVal := "h10"
    parentHash := "h9"
    time := 0
    nonceStr := "n0"
    baseFee := some 7
    blobGasUsed := some 0
    excessBlobGas := some 0
    difficulty := some 1
    extraStr := "0x"
    gasLimit := 30000000
    gasUsed := 0
    bloomStr := "0x0"
    coinbase := "m0"
    mixDigest := "x0"
    parentBeaconRoot := some "pb0"
    receiptHash := "rr0"
    uncleHash := "uu0"
    root := "sr0"
    txHash := "tr0"
    withdrawalsHash := some "wr0" }

/-- A competing header for block 10 (same number, different hash). -/
def hdrB : Header :=
  { hdrA with hashVal := "h10n", nonceStr := "n1" }

/-- The outcome of indexing hdrA into an empty database. -/
def resEx : HeadResult := (OnHead true chainEmpty dbEmpty hdrA).getD ⟨dbEmpty, 0, 0⟩

/-- A committed database holding exactly block 10. -/
def s10 : DBState := resEx.state

/-- s10 with block 10 finalized. -/
def sFin : DBState := (markBlockFinalized s10 10).1

/-- A transactions row for block 10 (inserted by code outside this plugin). -/
def txRow1 : TxRow := ⟨"t1", 10⟩

/-- The receipts row of transaction t1. -/
def rcRow1 : ReceiptRow := ⟨10, "h10", "t1", 0, "c", 0, 1⟩

/-- Block 10 together with a transaction and its receipt. -/
def s3 : DBState := { s10 with transactions := [txRow1], receipts := [rcRow1] }

/-- A chain returning two receipts for every block; neither transaction
exists in the (empty) transactions table, so the first receipt insert hits
a foreign-key violation. -/
def chainC4 : String → List RcptData := fun _ =>
  [⟨"t1", "c1", 0, 1, []⟩, ⟨"t2", "c2", 0, 1, [⟨0, "a", [], "0x"⟩]⟩]

/-- A pre-fee-market header: every optional field absent. -/
def hPre : Header :=
  { hdrA with
    baseFee := none
    blobGasUsed := none
    excessBlobGas := none
    parentBeaconRoot := none
    withdrawalsHash := none }

/-- A header whose only absent optional field is blob-gas-used. -/
def hNoBlob : Header := { hdrA with blobGasUsed := none }

/- Helper lemmas about statement execution. -/

theorem execStmt_of_aborted (t : SqlTx) (f : DBState → Option DBState) (h : t.aborted = true) :
    execStmt t f = { t with postAbort := t.postAbort + 1 } := by
  simp [execStmt, h]

theorem execStmt_not_aborted (t : SqlTx) (f : DBState → Option DBState)
    (h : (execStmt t f).aborted = false) :
    t.aborted = false ∧ f t.working = some (execStmt t f).working := by
  by_cases ht : t.aborted = true
  · rw [execStmt_of_aborted t f ht] at h
    simp [ht] at h
  · simp only [Bool.not_eq_true] at ht
    cases hf : f t.working with
    | none => simp [execStmt, ht, hf] at h
    | some w => simp [execStmt, ht, hf]

theorem execStmt_aborted_of_aborted (t : SqlTx) (f : DBState → Option DBState)
    (h : t.aborted = true) : (execStmt t f).aborted = true := by
  rw [execStmt_of_aborted t f h]; exact h

theorem execStmt_working_of_aborted (t : SqlTx) (f : DBState → Option DBState)
    (h : t.aborted = true) : (execStmt t f).working = t.working := by
  rw [execStmt_of_aborted t f h]

theorem insertBlockStmt_some (b : Block) (s s2 : DBState) (h : insertBlockStmt b s = some s2) :
    s2 = { s with blocks := ⟨b, false⟩ :: s.blocks } := by
  unfold insertBlockStmt at h
  split at h
  · exact absurd h (by simp)
  · exact (Option.some_injective _ h).symm

theorem insertReceiptStmt_some (r : ReceiptRow) (s s2 : DBState)
    (h : insertReceiptStmt r s = some s2) :
    s2 = { s with receipts := r :: s.receipts } := by
  unfold insertReceiptStmt at h
  split at h
  · exact absurd h (by simp)
  · split at h
    · exact absurd h (by simp)
    · split at h
      · exact absurd h (by simp)
      · exact (Option.some_injective _ h).symm

theorem insertLogStmt_some (l : LogRow) (s s2 : DBState) (h : insertLogStmt l s = some s2) :
    s2 = { s with logs := l :: s.logs } := by
  unfold insertLogStmt at h
  split at h
  · exact absurd h (by simp)
  · split at h
    · exact absurd h (by simp)
    · exact (Option.some_injective _ h).symm

/- Projections of a single log-insert statement step. -/

theorem exec_insertLog_receipts (t : SqlTx) (l : LogRow) :
    (execStmt t (insertLogStmt l)).working.receipts = t.working.receipts := by
  by_cases ht : t.aborted = true
  · rw [execStmt_working_of_aborted t _ ht]
  · simp only [Bool.not_eq_true] at ht
    cases hf : insertLogStmt l t.working with
    | none => simp [execStmt, ht, hf]
    | some w => simp [execStmt, ht, hf, insertLogStmt_some l t.working w hf]

theorem exec_insertLog_blocks (t : SqlTx) (l : LogRow) :
    (execStmt t (insertLogStmt l)).working.blocks = t.working.blocks := by
  by_cases ht : t.aborted = true
  · rw [execStmt_working_of_aborted t _ ht]
  · simp only [Bool.not_eq_true] at ht
    cases hf : insertLogStmt l t.working with
    | none => simp [execStmt, ht, hf]
    | some w => simp [execStmt, ht, hf, insertLogStmt_some l t.working w hf]

theorem exec_insertLog_logs_mono (t : SqlTx) (l : LogRow) (x : LogRow)
    (hx : x ∈ t.working.logs) : x ∈ (execStmt t (insertLogStmt l)).working.logs := by
  by_cases ht : t.aborted = true
  · rw [execStmt_working_of_aborted t _ ht]; exact hx
  · simp only [Bool.not_eq_true] at ht
    cases hf : insertLogStmt l t.working with
    | none => simpa [execStmt, ht, hf] using hx
    | some w =>
      simp [execStmt, ht, hf, insertLogStmt_some l t.working w hf]
      exact Or.inr hx

/- Projections of a single receipt-insert statement step. -/

theorem exec_insertReceipt_blocks (t : SqlTx) (r : ReceiptRow) :
    (execStmt t (insertReceiptStmt r)).working.blocks = t.working.blocks := by
  by_cases ht : t.aborted = true
  · rw [execStmt_working_of_aborted t _ ht]
  · simp only [Bool.not_eq_true] at ht
    cases hf : insertReceiptStmt r t.working with
    | none => simp [execStmt, ht, hf]
    | some w => simp [execStmt, ht, hf, insertReceiptStmt_some r t.working w hf]

theorem exec_insertReceipt_logs (t : SqlTx) (r : ReceiptRow) :
    (execStmt t (insertReceiptStmt r)).working.logs = t.working.logs := by
  by_cases ht : t.aborted = true
  · rw [execStmt_working_of_aborted t _ ht]
  · simp only [Bool.not_eq_true] at ht
    cases hf : insertReceiptStmt r t.working with
    | none => simp [execStmt, ht, hf]
    | some w => simp [execStmt, ht, hf, insertReceiptStmt_some r t.working w hf]

theorem exec_insertReceipt_receipts_mono (t : SqlTx) (r : ReceiptRow) (x : ReceiptRow)
    (hx : x ∈ t.working.receipts) : x ∈ (execStmt t (insertReceiptStmt r)).working.receipts := by
  by_cases ht : t.aborted = true
  · rw [execStmt_working_of_aborted t _ ht]; exact hx
  · simp only [Bool.not_eq_true] at ht
    cases hf : insertReceiptStmt r t.working with
    | none => simpa [execStmt, ht, hf] using hx
    | some w =>
      simp [execStmt, ht, hf, insertReceiptStmt_some r t.working w hf]
      exact Or.inr hx

/- Lemmas about the log loop of OnHead. -/

theorem insertLogsLoop_of_aborted (h : Header) (th : String) (ls : List LogData) :
    ∀ t : SqlTx, t.aborted = true →
      (insertLogsLoop h th t ls).aborted = true ∧
      (insertLogsLoop h th t ls).working = t.working := by
  induction ls with
  | nil => intro t ht; exact ⟨ht, rfl⟩
  | cons le rest ih =>
    intro t ht
    have h1 := ih (execStmt t (insertLogStmt (deriveLog h th le)))
      (execStmt_aborted_of_aborted t _ ht)
    refine ⟨h1.1, ?_⟩
    rw [insertLogsLoop, h1.2, execStmt_working_of_aborted t _ ht]

theorem insertLogsLoop_receipts (h : Header) (th : String) (ls : List LogData) :
    ∀ t : SqlTx, (insertLogsLoop h th t ls).working.receipts = t.working.receipts := by
  induction ls with
  | nil => intro t; rfl
  | cons le rest ih =>
    intro t
    rw [insertLogsLoop, ih, exec_insertLog_receipts]

theorem insertLogsLoop_blocks (h : Header) (th : String) (ls : List LogData) :
    ∀ t : SqlTx, (insertLogsLoop h th t ls).working.blocks = t.working.blocks := by
  induction ls with
  | nil => intro t; rfl
  | cons le rest ih =>
    intro t
    rw [insertLogsLoop, ih, exec_insertLog_blocks]

theorem insertLogsLoop_logs_mono (h : Header) (th : String) (ls : List LogData) :
    ∀ (t : SqlTx) (x : LogRow), x ∈ t.working.logs →
      x ∈ (insertLogsLoop h th t ls).working.logs := by
  induction ls with
  | nil => intro t x hx; exact hx
  | cons le rest ih =>
    intro t x hx
    exact ih _ x (exec_insertLog_logs_mono t _ x hx)

theorem insertLogsLoop_success (h : Header) (th : String) (ls : List LogData) :
    ∀ t : SqlTx, (insertLogsLoop h th t ls).aborted = false →
      ∀ le ∈ ls, deriveLog h th le ∈ (insertLogsLoop h th t ls).working.logs := by
  induction ls with
  | nil => intro t _ le hle; exact absurd hle (List.not_mem_nil le)
  | cons le0 rest ih =>
    intro t hres le hle
    rw [insertLogsLoop] at hres ⊢
    have ht1 : (execStmt t (insertLogStmt (deriveLog h th le0))).aborted = false := by
      by_cases hc : (execStmt t (insertLogStmt (deriveLog h th le0))).aborted = true
      · have := (insertLogsLoop_of_aborted h th rest _ hc).1
        rw [this] at hres; exact absurd hres (by simp)
      · simpa using hc
    rcases List.mem_cons.mp hle with hhead | htail
    · subst hhead
      have hstep := execStmt_not_aborted t (insertLogStmt (deriveLog h th le)) ht1
      have hshape := insertLogStmt_some (deriveLog h th le) t.working _ hstep.2
      have hmem : deriveLog h th le ∈ (execStmt t (insertLogStmt (deriveLog h th le))).working.logs := by
        rw [hshape]; exact List.mem_cons_self _ _
      exact insertLogsLoop_logs_mono h th rest _ _ hmem
    · exact ih _ hres le htail

/- Lemmas about the receipt loop of OnHead. -/

theorem insertReceiptsLoop_of_aborted (h : Header) (rs : List RcptData) :
    ∀ (t : SqlTx) (i : Nat), t.aborted = true →
      (insertReceiptsLoop h t i rs).aborted = true ∧
      (insertReceiptsLoop h t i rs).working = t.working := by
  induction rs with
  | nil => intro t i ht; exact ⟨ht, rfl⟩
  | cons rc rest ih =>
    intro t i ht
    have habt : (execStmt t (insertReceiptStmt (deriveReceipt h i rc))).aborted = true :=
      execStmt_aborted_of_aborted t _ ht
    have h1 := ih (execStmt t (insertReceiptStmt (deriveReceipt h i rc))) (i + 1) habt
    rw [insertReceiptsLoop, if_pos habt]
    exact ⟨h1.1, by rw [h1.2, execStmt_working_of_aborted t _ ht]⟩

theorem insertReceiptsLoop_blocks (h : Header) (rs : List RcptData) :
    ∀ (t : SqlTx) (i : Nat),
      (insertReceiptsLoop h t i rs).working.blocks = t.working.blocks := by
  induction rs with
  | nil => intro t i; rfl
  | cons rc rest ih =>
    intro t i
    rw [insertReceiptsLoop]
    split
    · rw [ih, exec_insertReceipt_blocks]
    · rw [ih, insertLogsLoop_blocks, exec_insertReceipt_blocks]

theorem insertReceiptsLoop_receipts_mono (h : Header) (rs : List RcptData) :
    ∀ (t : SqlTx) (i : Nat) (x : ReceiptRow), x ∈ t.working.receipts →
      x ∈ (insertReceiptsLoop h t i rs).working.receipts := by
  induction rs with
  | nil => intro t i x hx; exact hx
  | cons rc rest ih =>
    intro t i x hx
    rw [insertReceiptsLoop]
    split
    · exact ih _ _ x (exec_insertReceipt_receipts_mono t _ x hx)
    · refine ih _ _ x ?_
      rw [insertLogsLoop_receipts]
      exact exec_insertReceipt_receipts_mono t _ x hx

theorem insertReceiptsLoop_logs_mono (h : Header) (rs : List RcptData) :
    ∀ (t : SqlTx) (i : Nat) (x : LogRow), x ∈ t.working.logs →
      x ∈ (insertReceiptsLoop h t i rs).working.logs := by
  induction rs with
  | nil => intro t i x hx; exact hx
  | cons rc rest ih =>
    intro t i x hx
    rw [insertReceiptsLoop]
    split
    · refine ih _ _ x ?_
      rw [exec_insertReceipt_logs]
      exact hx
    · refine ih _ _ x ?_
      refine insertLogsLoop_logs_mono h rc.txHash rc.logs _ x ?_
      rw [exec_insertReceipt_logs]
      exact hx

/-- If the receipt loop finishes with the transaction still healthy, every
derived receipt row and every derived log row made it into the working
state (any insert failure would have aborted the transaction for good). -/
theorem insertReceiptsLoop_success (h : Header) (rs : List RcptData) :
    ∀ (t : SqlTx) (i : Nat), (insertReceiptsLoop h t i rs).aborted = false →
      ∀ pr ∈ derivedPairs h i rs,
        pr.1 ∈ (insertReceiptsLoop h t i rs).working.receipts ∧
        ∀ l ∈ pr.2, l ∈ (insertReceiptsLoop h t i rs).working.logs := by
  induction rs with
  | nil => intro t i _ pr hpr; exact absurd hpr (List.not_mem_nil pr)
  | cons rc rest ih =>
    intro t i hres pr hpr
    rw [insertReceiptsLoop] at hres ⊢
    by_cases ht1 : (execStmt t (insertReceiptStmt (deriveReceipt h i rc))).aborted = true
    · rw [if_pos ht1] at hres
      have := (insertReceiptsLoop_of_aborted h rest _ (i + 1) ht1).1
      rw [this] at hres
      exact absurd hres (by simp)
    · have ht1f : (execStmt t (insertReceiptStmt (deriveReceipt h i rc))).aborted = false := by
        simpa using ht1
      rw [if_neg ht1] at hres ⊢
      have hstep := execStmt_not_aborted t (insertReceiptStmt (deriveReceipt h i rc)) ht1f
      have hshape := insertReceiptStmt_some (deriveReceipt h i rc) t.working _ hstep.2
      have ht2f :
          (insertLogsLoop h rc.txHash
            (execStmt t (insertReceiptStmt (deriveReceipt h i rc))) rc.logs).aborted = false := by
        by_cases hc : (insertLogsLoop h rc.txHash
            (execStmt t (insertReceiptStmt (deriveReceipt h i rc))) rc.logs).aborted = true
        · have := (insertReceiptsLoop_of_aborted h rest _ (i + 1) hc).1
          rw [this] at hres
          exact absurd hres (by simp)
        · simpa using hc
      rcases List.mem_cons.mp hpr with hhead | htail
      · subst hhead
        constructor
        · refine insertReceiptsLoop_receipts_mono h rest _ (i + 1) _ ?_
          rw [insertLogsLoop_receipts, hshape]
          exact List.mem_cons_self _ _
        · intro l hl
          rcases List.mem_map.mp hl with ⟨le, hle, rfl⟩
          refine insertReceiptsLoop_logs_mono h rest _ (i + 1) _ ?_
          exact insertLogsLoop_success h rc.txHash rc.logs _ ht2f le hle
      · exact ih _ (i + 1) hres pr htail

/-- Execution skeleton of OnHead with a database handle: either the
committed state is untouched (block-insert conflict, or any later insert
failure aborting the transaction so the commit fails), or the commit
installed the block row in front of the old blocks together with every
derived receipt and log row. -/
theorem onHead_main (chain : String → List RcptData) (s : DBState) (h : Header)
    (res : HeadResult) (h1 : OnHead true chain s h = some res) :
    res.state = s ∨
    ∃ b, mkBlock h = some b ∧ res.state.blocks = ⟨b, false⟩ :: s.blocks ∧
      ∀ pr ∈ derivedPairs h 0 (chain h.hashVal),
        pr.1 ∈ res.state.receipts ∧ ∀ l ∈ pr.2, l ∈ res.state.logs := by
  unfold OnHead at h1
  simp only [Bool.true_eq_false, if_false] at h1
  cases hb : mkBlock h with
  | none => rw [hb] at h1; exact absurd h1 (by simp)
  | some b =>
    rw [hb] at h1
    simp only at h1
    by_cases ht1 : (execStmt ⟨s, false, 0⟩ (insertBlockStmt b)).aborted = true
    · rw [if_pos ht1] at h1
      left
      have := Option.some_injective _ h1
      rw [← this]
    · have ht1f : (execStmt ⟨s, false, 0⟩ (insertBlockStmt b)).aborted = false := by
        simpa using ht1
      rw [if_neg ht1] at h1
      have hstep := execStmt_not_aborted ⟨s, false, 0⟩ (insertBlockStmt b) ht1f
      have hshape := insertBlockStmt_some b s _ hstep.2
      by_cases ht2 : (insertReceiptsLoop h (execStmt ⟨s, false, 0⟩ (insertBlockStmt b)) 0
          (chain h.hashVal)).aborted = true
      · rw [if_pos ht2] at h1
        left
        have := Option.some_injective _ h1
        rw [← this]
      · have ht2f : (insertReceiptsLoop h (execStmt ⟨s, false, 0⟩ (insertBlockStmt b)) 0
            (chain h.hashVal)).aborted = false := by simpa using ht2
        rw [if_neg ht2] at h1
        have hres := Option.some_injective _ h1
        right
        refine ⟨b, rfl, ?_, ?_⟩
        · rw [← hres]
          show (insertReceiptsLoop h _ 0 (chain h.hashVal)).working.blocks = _
          rw [insertReceiptsLoop_blocks, hshape]
        · intro pr hpr
          rw [← hres]
          exact insertReceiptsLoop_success h (chain h.hashVal) _ 0 ht2f pr hpr

/-- A head whose block number or hash already exists in the committed
state fails at the block insert and returns with the state untouched. -/
theorem onHead_conflict (chain : String → List RcptData) (s : DBState) (h : Header) (b : Block)
    (hb : mkBlock h = some b)
    (hc : (s.blocks.any fun r =>
      decide (r.data.number = b.number) || decide (r.data.hash = b.hash)) = true) :
    OnHead true chain s h = some ⟨s, 1, 0⟩ := by
  unfold OnHead
  simp only [Bool.true_eq_false, if_false]
  rw [hb]
  simp only
  have hexec : execStmt ⟨s, false, 0⟩ (insertBlockStmt b) = ⟨s, true, 0⟩ := by
    simp [execStmt, insertBlockStmt, hc]
  rw [hexec]
  simp

/- Lemmas about the receipts cache. -/

theorem lruGet_preserves (getR : String → Option (List RcptData)) (c : RCache) (h : String)
    (hc : CacheOK getR c) : CacheOK getR (lruGet c h).2 := by
  unfold lruGet
  cases hfind : c.entries.find? (fun e => decide (e.1 = h)) with
  | none => exact hc
  | some e =>
    intro x hx
    rcases List.mem_cons.mp hx with hhead | htail
    · subst hhead
      have he1 : e.1 = h := by
        have := List.find?_some hfind
        simpa using this
      rw [← he1]
      exact hc e (List.mem_of_find?_eq_some hfind)
    · exact hc x (List.mem_of_mem_filter htail)

theorem lruAdd_preserves (getR : String → Option (List RcptData)) (c : RCache) (h : String)
    (v : List RcptData) (hc : CacheOK getR c) (hv : getR h = some v) :
    CacheOK getR (lruAdd c h v) := by
  unfold lruAdd
  intro x hx
  simp only at hx
  have hx2 : x ∈ (h, v) :: c.entries.filter fun e => decide (e.1 ≠ h) := by
    by_cases hlen : rcacheCapacity <
        ((h, v) :: c.entries.filter fun e => decide (e.1 ≠ h)).length
    · rw [if_pos hlen] at hx
      exact List.dropLast_sublist _ |>.subset hx
    · rw [if_neg hlen] at hx
      exact hx
  rcases List.mem_cons.mp hx2 with hhead | htail
  · subst hhead; exact hv
  · exact hc x (List.mem_of_mem_filter htail)

theorem getBlockReceipts_val (getR : String → Option (List RcptData)) (h : String) (c : RCache)
    (hc : CacheOK getR c) : (GetBlockReceipts getR h c).1 = getR h := by
  unfold GetBlockReceipts lruGet
  cases hfind : c.entries.find? (fun e => decide (e.1 = h)) with
  | some e =>
    have he1 : e.1 = h := by
      have := List.find?_some hfind
      simpa using this
    have := hc e (List.mem_of_find?_eq_some hfind)
    rw [he1] at this
    simp [this]
  | none =>
    cases hg : getR h with
    | none => simp
    | some v => simp

theorem getBlockReceipts_preserves (getR : String → Option (List RcptData)) (h : String)
    (c : RCache) (hc : CacheOK getR c) : CacheOK getR (GetBlockReceipts getR h c).2 := by
  unfold GetBlockReceipts
  cases hget : lruGet c h with
  | mk o c1 =>
    have hc1 : CacheOK getR c1 := by
      have := lruGet_preserves getR c h hc
      rw [hget] at this
      exact this
    cases o with
    | some v => exact hc1
    | none =>
      simp only
      cases hg : getR h with
      | none => exact hc1
      | some v => exact lruAdd_preserves getR c1 h v hc1 hg

theorem runCalls_preserves (getR : String → Option (List RcptData)) (hs : List String) :
    ∀ c : RCache, CacheOK getR c → CacheOK getR (runCalls getR c hs) := by
  induction hs with
  | nil => intro c hc; exact hc
  | cons h rest ih =>
    intro c hc
    exact ih _ (getBlockReceipts_preserves getR h c hc)

/- Lemmas about MarkBlockFinalized, stated on the blocks list. -/

theorem markMap_data (n : Nat) (l : List BlockRow) :
    (l.map fun r => if r.data.number = n then ⟨r.data, true⟩ else r).map BlockRow.data =
      l.map BlockRow.data := by
  induction l with
  | nil => rfl
  | cons r rest ih =>
    by_cases hr : r.data.number = n
    · simp [hr, ih]
    · simp [hr, ih]

theorem markMap_flag (n : Nat) (l : List BlockRow) :
    ((l.map fun r => if r.data.number = n then ⟨r.data, true⟩ else r).all fun r =>
      !(decide (r.data.number = n)) || r.finalized) = true := by
  induction l with
  | nil => rfl
  | cons r rest ih =>
    by_cases hr : r.data.number = n
    · simp [hr, ih]
    · simp [hr, ih]

theorem markMap_untouched (n : Nat) (l : List BlockRow) :
    (((l.map fun r => if r.data.number = n then ⟨r.data, true⟩ else r).zip l).all fun p =>
      decide (p.2.data.number = n) || decide (p.1 = p.2)) = true := by
  induction l with
  | nil => rfl
  | cons r rest ih =>
    by_cases hr : r.data.number = n
    · simp [hr, ih]
    · simp [hr, ih]

theorem markMap_idem (n : Nat) (l : List BlockRow) :
    ((l.map fun r => if r.data.number = n then ⟨r.data, true⟩ else r).map fun r =>
      if r.data.number = n then ⟨r.data, true⟩ else r) =
      l.map fun r => if r.data.number = n then ⟨r.data, true⟩ else r := by
  induction l with
  | nil => rfl
  | cons r rest ih =>
    by_cases hr : r.data.number = n
    · simp [hr, ih]
    · simp [hr, ih]

/- Claim theorems. -/

/-- C1: the claim that OnReorg inserts every new-header graph through the
same single transaction that performed the deletions, all-or-nothing, is
false in the code: each new header goes through p.OnHead, which begins and
commits a FRESH transaction.  Concretely, reorging old block 10 to a new
block 10 over a database holding the old block begins 2 transactions (the
outer one plus the one OnHead begins); the insert inside OnHead conflicts with the
still-committed old row and is silently dropped, yet the outer commit
still applies the deletion, so the final state is empty — neither the
pre-reorg state (as the claim requires after a failed step) nor the new
chain. -/
theorem onReorg_perBlockTx_destroysChain :
    OnReorg true chainEmpty s10 [hdrA] [hdrB] = some ⟨dbEmpty, 2, 0⟩ ∧ s10 ≠ dbEmpty := by
  constructor
  · decide
  · decide

/-- C2: the claim that the range delete raises FinalizedBlockProtected on a
finalized block in range is false in the code: DeleteBlockAndDescendantsWithTx
has no finalized check and no such error exists.  On a database whose only
block (number 10) is finalized, the range delete from 10 succeeds (not
aborted) and removes the finalized row, and a full OnReorg of old block 10
is not rejected either: it commits and destroys the finalized block. -/
theorem deleteRange_removesFinalizedBlock :
    (sFin.blocks.any fun r => decide (10 ≤ r.data.number) && r.finalized) = true ∧
    (deleteRangeWithTx ⟨sFin, false, 0⟩ 10).aborted = false ∧
    (deleteRangeWithTx ⟨sFin, false, 0⟩ 10).working = dbEmpty ∧
    OnReorg true chainEmpty sFin [hdrA] [hdrB] = some ⟨dbEmpty, 2, 0⟩ := by
  refine ⟨by decide, by decide, by decide, by decide⟩

/-- C3: the claim that the range delete removes receipts (between logs and
transactions) and leaves no orphans is false in the code: the deleteQueries
list has no receipts statement at all.  On a database with block 10, a
transaction t1 in it and a receipt for t1, the DELETE FROM transactions
statement violates the receipts foreign key, so the range delete returns
an error with the transaction aborted and every row — including the
receipt whose transaction the claim says is removed — still in place. -/
theorem deleteRange_skipsReceipts :
    DTable.receipts ∉ deleteOrder ∧
    deleteOrder ≠ specDeleteOrder ∧
    deleteRangeWithTx ⟨s3, false, 0⟩ 10 = ⟨s3, true, 0⟩ ∧
    s3.receipts ≠ [] := by
  refine ⟨by decide, by decide, by decide, by decide⟩

/-- C4 (amended): OnHead uses one transaction and commits only on full
success — for every call that returns, the committed state is either
untouched or contains the derived block row together with every derived
receipt row and every derived log row; a block is never committed with
only part of its receipts or logs.  (The engine does, however, keep
issuing the remaining inserts and the commit after a failed insert; the
aborted transaction rejects them, see the counterexample.) -/
theorem onHead_atomic (dbp : Bool) (chain : String → List RcptData) (s : DBState)
    (h : Header) (res : HeadResult) (h1 : OnHead dbp chain s h = some res) :
    res.state = s ∨
    ∃ b, mkBlock h = some b ∧ (⟨b, false⟩ : BlockRow) ∈ res.state.blocks ∧
      ∀ pr ∈ derivedPairs h 0 (chain h.hashVal),
        pr.1 ∈ res.state.receipts ∧ ∀ l ∈ pr.2, l ∈ res.state.logs := by
  cases dbp with
  | false =>
    left
    unfold OnHead at h1
    simp only [if_pos rfl] at h1
    have := Option.some_injective _ h1
    rw [← this]
  | true =>
    rcases onHead_main chain s h res h1 with hl | ⟨b, hb, hblocks, hpairs⟩
    · exact Or.inl hl
    · exact Or.inr ⟨b, hb, by rw [hblocks]; exact List.mem_cons_self _ _, hpairs⟩

/-- C4 witness: indexing hdrA into the empty database satisfies the
atomicity disjunction. -/
theorem onHead_atomic_witness :
    resEx.state = dbEmpty ∨
    ∃ b, mkBlock hdrA = some b ∧ (⟨b, false⟩ : BlockRow) ∈ resEx.state.blocks ∧
      ∀ pr ∈ derivedPairs hdrA 0 (chainEmpty hdrA.hashVal),
        pr.1 ∈ resEx.state.receipts ∧ ∀ l ∈ pr.2, l ∈ resEx.state.logs :=
  onHead_atomic true chainEmpty dbEmpty hdrA resEx rfl

/-- C4 counterexample: the claim that the engine never continues inserting
and committing after a failed insert is false.  With two receipts whose
transactions are missing from the transactions table, the first receipt
insert fails (foreign key) and aborts the transaction, yet the engine
still attempts the second receipt insert and the commit: 2 statements
issued on the aborted transaction, not 0.  (The aborted transaction
rejects both, so the committed state stays dbEmpty.) -/
theorem onHead_continuesAfterFailedInsert :
    OnHead true chainC4 dbEmpty hdrA = some ⟨dbEmpty, 1, 2⟩ ∧
    (OnHead true chainC4 dbEmpty hdrA).map HeadResult.postAbort ≠ some 0 := by
  refine ⟨by decide, by decide⟩

/-- C5: head application is idempotent — if OnHead returns (does not
panic) with committed state res.state, delivering the same header again
also returns (no error surfaces; the method is void in the source) and
leaves the committed state unchanged: the duplicate block insert hits the
number/hash constraint and the call backs out before touching anything. -/
theorem onHead_idempotent (dbp : Bool) (chain : String → List RcptData) (s : DBState)
    (h : Header) (res : HeadResult) (h1 : OnHead dbp chain s h = some res) :
    ∃ r2, OnHead dbp chain res.state h = some r2 ∧ r2.state = res.state := by
  cases dbp with
  | false =>
    refine ⟨⟨res.state, 0, 0⟩, ?_, rfl⟩
    simp [OnHead]
  | true =>
    rcases onHead_main chain s h res h1 with hl | ⟨b, hb, hblocks, _⟩
    · refine ⟨res, ?_, rfl⟩
      rw [hl]
      exact h1
    · refine ⟨⟨res.state, 1, 0⟩, ?_, rfl⟩
      refine onHead_conflict chain res.state h b hb ?_
      rw [hblocks]
      simp

/-- C5 witness: re-delivering hdrA after it was committed into the empty
database returns without error and changes nothing. -/
theorem onHead_idempotent_witness :
    ∃ r2, OnHead true chainEmpty resEx.state hdrA = some r2 ∧ r2.state = resEx.state :=
  onHead_idempotent true chainEmpty dbEmpty hdrA resEx rfl

/-- C6: the claim that Block derivation completes without fault for every
header, recording absent optional fields as absent, is false in the code:
fmt.Sprintf dereferences *header.BlobGasUsed and *header.ExcessBlobGas and
the nil *common.Hash method calls panic.  A pre-fee-market header (all
optional fields absent) faults, and so does a header missing only
blob-gas-used; a fully populated header derives fine. -/
theorem mkBlock_faultsOnAbsentOptionalFields :
    mkBlock hPre = none ∧ mkBlock hNoBlob = none ∧ (mkBlock hdrA).isSome = true := by
  refine ⟨by decide, by decide, by decide⟩

/-- C7 (amended): markFinalized always reports success, sets the finalized
flag on exactly the rows with the given number while touching nothing
else, and is idempotent (a no-op when the flag is already set) — but it
silently succeeds, with no NotFound error, when no block with that number
exists (see the counterexample). -/
theorem markFinalized_props (s : DBState) (n : Nat) :
    (markBlockFinalized s n).2 = true ∧
    (markBlockFinalized s n).1.blocks.map BlockRow.data = s.blocks.map BlockRow.data ∧
    ((markBlockFinalized s n).1.blocks.all fun r =>
      !(decide (r.data.number = n)) || r.finalized) = true ∧
    (((markBlockFinalized s n).1.blocks.zip s.blocks).all fun p =>
      decide (p.2.data.number = n) || decide (p.1 = p.2)) = true ∧
    markBlockFinalized (markBlockFinalized s n).1 n = markBlockFinalized s n := by
  refine ⟨rfl, markMap_data n s.blocks, markMap_flag n s.blocks, markMap_untouched n s.blocks, ?_⟩
  unfold markBlockFinalized
  simp only [markMap_idem n s.blocks]

/-- C7 counterexample: the claim that markFinalized fails with NotFound
when the block is absent is false — on an empty database the UPDATE
matches zero rows and the function reports success. -/
theorem markFinalized_absentBlock_noError :
    markBlockFinalized dbEmpty 5 = (dbEmpty, true) ∧
    (dbEmpty.blocks.any fun r => decide (r.data.number = 5)) = false := by
  refine ⟨by decide, by decide⟩

/-- C8: the claim that onClose is safe even when initialization never
completed is false in the code: OnClose calls p.db.Close() with no nil
check (unlike OnHead/OnFinal), so a plugin constructed without a database
connection panics on the nil dereference; with a connection it closes
normally. -/
theorem onClose_withoutDB_faults : OnClose false = none ∧ OnClose true = some () :=
  ⟨rfl, rfl⟩

/-- C9: receipt-cache hits are never stale — with receipts for a hash
immutable (getR a fixed function), GetBlockReceipts returns exactly the
fresh fetch getR h after any sequence of prior calls starting from the
empty cache, whether served from the LRU cache or fetched. -/
theorem getBlockReceipts_neverStale (getR : String → Option (List RcptData))
    (hs : List String) (h : String) :
    (GetBlockReceipts getR h (runCalls getR ⟨[]⟩ hs)).1 = getR h :=
  getBlockReceipts_val getR h _
    (runCalls_preserves getR hs ⟨[]⟩ (fun e he => absurd he (List.not_mem_nil e)))

/-- C10: the nil-database guard covers exactly the head and finalization
paths: without a handle, OnHead returns the state unchanged with no
transaction begun and OnFinal returns the state unchanged, while OnReorg
(for any header lists) and OnClose fault — they dereference the handle
(or index the header slices) with no nil check. -/
theorem nilGuard_paths :
    (∀ (chain : String → List RcptData) (s : DBState) (h : Header),
      OnHead false chain s h = some ⟨s, 0, 0⟩) ∧
    (∀ (s : DBState) (n : Nat), OnFinal false s n = s) ∧
    (∀ (chain : String → List RcptData) (s : DBState) (old nw : List Header),
      OnReorg false chain s old nw = none) ∧
    OnClose false = none := by
  refine ⟨fun chain s h => rfl, fun s n => rfl, fun chain s old nw => ?_, rfl⟩
  cases old with
  | nil =>
    cases nw with
    | nil => rfl
    | cons w wrest => rfl
  | cons o orest =>
    cases nw with
    | nil => rfl
    | cons w wrest => rfl

end Indexer
